import Mathlib

/-!
Verification of the dealmail CLI (TypeScript) against its natural-language
specification.  The relevant pure logic of the source is shallowly embedded:
fp-ts `TaskEither` values become `Except`, remote JMAP services become
explicit response arguments or response functions, and the filesystem becomes
an association list from path to JSON value.  All definitions mirror the
TypeScript source (src/jmap.ts, src/commands/archive.ts,
src/commands/get-emails.ts, src/commands/extract.ts), including JavaScript
truthiness quirks (empty strings are falsy) where the source relies on them.
-/

namespace Dealmail

/-- Error type of the JMAP-facing modules.  Every failure constructed by the
embedded code paths is an `ApiError` carrying a message (the source wraps all
of its errors in `ApiError extends JmapError`/`ArchiveError`). -/
inductive JmapErr where
  | apiError (msg : String)
  deriving Repr, DecidableEq

/-- Mailbox record from `Mailbox/get` (src/jmap.ts `Mailbox`).  The optional
`role` models the TypeScript `role?: MailboxRole` field, `none` standing for
an absent/null role. -/
structure Mailbox where
  id : String
  name : String
  role : Option String
  totalEmails : Nat
  deriving Repr, DecidableEq

/-- Embedding of `findMailboxByRole` (src/jmap.ts): first mailbox whose role
strictly equals the requested role, `ApiError` when none matches. -/
def findMailboxByRole (mailboxes : List Mailbox) (role : String) :
    Except JmapErr Mailbox :=
  match mailboxes.find? (fun box => box.role = some role) with
  | some mailbox => .ok mailbox
  | none => .error (.apiError ("Could not find " ++ role ++ " folder"))

/-- Per-item error entry of an `Email/set` response `notUpdated` map
(src/jmap.ts `JmapEmailSetResponse`): a type tag and an optional
description. -/
structure SetError where
  type : String
  description : Option String
  deriving Repr, DecidableEq

/-- Rendering of a `notUpdated` entry the way `JSON.stringify` renders it in
the source's error message (`Failed to archive email ...`), with the fields
in declaration order. -/
def SetError.stringify (e : SetError) : String :=
  match e.description with
  | some d =>
      "\x7b\"type\":\"" ++ e.type ++ "\",\"description\":\"" ++ d ++ "\"\x7d"
  | none => "\x7b\"type\":\"" ++ e.type ++ "\"\x7d"

/-- The `Email/set` response as consumed by `archiveEmail`
(src/commands/archive.ts): the key set of the `updated` map and the entries
of the `notUpdated` map, as association data. -/
structure EmailSetResponse where
  updated : List String
  notUpdated : List (String × SetError)
  deriving Repr, DecidableEq

/-- JavaScript property access `notUpdated[emailId]` on the `notUpdated`
map. -/
def lookupNotUpdated (m : List (String × SetError)) (emailId : String) :
    Option SetError :=
  (m.find? (fun p => p.1 = emailId)).map (fun p => p.2)

/-- The `Email/set` request built by `archiveEmail`: one update for
`emailId` removing membership in `removeMailboxId` (set to null) and adding
membership in `addMailboxId` (set to true). -/
structure EmailSetRequest where
  accountId : String
  emailId : String
  removeMailboxId : String
  addMailboxId : String
  deriving Repr, DecidableEq

/-- Interpretation of the `Email/set` response by `archiveEmail`
(src/commands/archive.ts, the `TE.chain` continuation): an id listed in
`updated` yields `true`; otherwise an entry in `notUpdated` yields an
`ApiError` carrying the stringified entry; otherwise `false`. -/
def archiveEmailResult (resp : EmailSetResponse) (emailId : String) :
    Except JmapErr Bool :=
  if resp.updated.contains emailId then .ok true
  else
    match lookupNotUpdated resp.notUpdated emailId with
    | some err =>
        .error (.apiError
          ("Failed to archive email " ++ emailId ++ ": " ++ err.stringify))
    | none => .ok false

/-- Embedding of `archiveEmail` (src/commands/archive.ts): issue one
`Email/set` call moving `emailId` from `inboxId` to `archiveId` and
interpret the response.  The remote service is abstracted as the function
`server` from requests to responses. -/
def archiveEmail (server : EmailSetRequest → EmailSetResponse)
    (accountId emailId inboxId archiveId : String) : Except JmapErr Bool :=
  archiveEmailResult (server ⟨accountId, emailId, inboxId, archiveId⟩) emailId

/-- The `notFound` list of the `Email/get` response used by `verifyEmails`.
Modelled from the spec: the remote store (the list of existing message ids)
is abstract, and per the mail-access protocol the service reports exactly
the requested ids that are absent from it. -/
def emailGetNotFound (store : List String) (ids : List String) : List String :=
  ids.filter (fun id => !store.contains id)

/-- Embedding of `verifyEmails` (src/commands/archive.ts): fails with an
`ApiError` listing the `notFound` ids joined by `", "` when the response
reports any missing id, otherwise echoes the input ids. -/
def verifyEmails (store : List String) (emailIds : List String) :
    Except JmapErr (List String) :=
  let notFound := emailGetNotFound store emailIds
  if notFound.length > 0 then
    .error (.apiError
      ("Some emails were not found: " ++ String.intercalate ", " notFound))
  else .ok emailIds

/-- Embedding of `archiveEmails` (src/commands/archive.ts): sequential
left-to-right reduce over the ids with `TE.chain`, so the first error
short-circuits the rest, counting the `true` results.  The second component
records the `Email/set` requests actually issued (ids reached after an
earlier error issue none). -/
def archiveEmails (server : EmailSetRequest → EmailSetResponse)
    (accountId : String) (emailIds : List String)
    (inboxId archiveId : String) :
    Except JmapErr Nat × List EmailSetRequest :=
  emailIds.foldl
    (fun acc emailId =>
      match acc with
      | (.error e, trace) => (.error e, trace)
      | (.ok count, trace) =>
        let req : EmailSetRequest := ⟨accountId, emailId, inboxId, archiveId⟩
        ((archiveEmailResult (server req) emailId).map
            (fun succeeded => if succeeded then count + 1 else count),
          trace ++ [req]))
    (.ok 0, [])

/-- The verify-then-move tail of the archive command handler
(src/commands/archive.ts, the last `TE.chain` of the handler program):
`verifyEmails` chained into `archiveEmails`, so a verification failure
short-circuits before any `Email/set` call. -/
def archiveVerifyThenMove (store : List String)
    (server : EmailSetRequest → EmailSetResponse) (accountId : String)
    (ids : List String) (inboxId archiveId : String) :
    Except JmapErr Nat × List EmailSetRequest :=
  match verifyEmails store ids with
  | .error e => (.error e, [])
  | .ok verifiedIds => archiveEmails server accountId verifiedIds inboxId archiveId

/-- The email limit as held by the get-emails command after parsing: a
JavaScript number that is either finite or `Infinity` (the source encodes
"all" as `Number.POSITIVE_INFINITY`). -/
inductive EmailLimit where
  | finite (n : Int)
  | infinite
  deriving Repr, DecidableEq

/-- Whitespace characters skipped by JavaScript `Number.parseInt` and
removed by `String.prototype.trim`. -/
def jsWhitespace (c : Char) : Bool :=
  c == ' ' || c == '\t' || c == '\n' || c == '\r' || c == '\x0b' || c == '\x0c'

/-- JavaScript `String.prototype.toLowerCase` (ASCII range, which is all the
source compares against). -/
def jsToLowerCase (s : String) : String :=
  ⟨s.data.map Char.toLower⟩

/-- JavaScript `String.prototype.trim`: strip leading and trailing
whitespace. -/
def jsTrim (s : String) : String :=
  ⟨((s.data.dropWhile jsWhitespace).reverse.dropWhile jsWhitespace).reverse⟩

/-- JavaScript `String.prototype.startsWith`. -/
def jsStartsWith (s pre : String) : Bool :=
  pre.data.isPrefixOf s.data

/-- Decimal value of a digit list (most significant first). -/
def digitsVal (cs : List Char) : Nat :=
  cs.foldl (fun acc c => acc * 10 + (c.toNat - Char.toNat '0')) 0

/-- Embedding of JavaScript `Number.parseInt(s, 10)`: skip leading
whitespace, read an optional sign, then the longest prefix of decimal
digits; `none` models `NaN` (no digits found).  Trailing garbage after the
digits is ignored, exactly as in JavaScript. -/
def jsParseInt (s : String) : Option Int :=
  let cs := s.data.dropWhile jsWhitespace
  let signDigits : Bool × List Char :=
    match cs with
    | '-' :: rest => (true, rest)
    | '+' :: rest => (false, rest)
    | _ => (false, cs)
  let digits := signDigits.2.takeWhile Char.isDigit
  if digits.isEmpty then none
  else some (if signDigits.1 then -(digitsVal digits : Int) else (digitsVal digits : Int))

/-- Embedding of `parseEmailLimit` (src/commands/get-emails.ts): the literal
`"all"` (case-insensitive) maps to the unbounded limit; otherwise the string
is parsed with `Number.parseInt`, and `NaN` or a value `<= 0` is rejected
with an `ApiError` before anything else runs. -/
def parseEmailLimit (limitStr : String) : Except JmapErr EmailLimit :=
  if jsToLowerCase limitStr = "all" then .ok .infinite
  else
    match jsParseInt limitStr with
    | none =>
        .error (.apiError
          ("Invalid limit: " ++ limitStr ++ ". Must be a positive number or \"all\""))
    | some limit =>
        if limit ≤ 0 then
          .error (.apiError
            ("Invalid limit: " ++ limitStr ++ ". Must be a positive number or \"all\""))
        else .ok (.finite limit)

/-- The `Email/query` request arguments built by `getEmails` (src/jmap.ts):
filter on the mailbox, sort by `receivedAt` descending, optional limit,
`calculateTotal` set. -/
structure EmailQueryArgs where
  accountId : String
  inMailbox : String
  sortProperty : String
  sortAscending : Bool
  limit : Option Int
  calculateTotal : Bool
  deriving Repr, DecidableEq

/-- The `apiLimit` conversion in `getEmails` (src/jmap.ts):
`Number.isFinite(limit) ? limit : undefined`, so `Infinity` becomes an
omitted limit at the protocol boundary. -/
def apiLimit : EmailLimit → Option Int
  | .finite n => some n
  | .infinite => none

/-- Request construction of `getEmails` (src/jmap.ts). -/
def buildEmailQuery (accountId mailboxId : String) (limit : EmailLimit) :
    EmailQueryArgs :=
  ⟨accountId, mailboxId, "receivedAt", false, apiLimit limit, true⟩

/-- Raw `Email/query` response as it arrives from the remote service: every
field may be absent (src/jmap.ts normalizes it). -/
structure RawQueryResponse where
  accountId : Option String
  ids : Option (List String)
  total : Option Int
  position : Option Int
  queryState : Option String
  canCalculateChanges : Option Bool
  deriving Repr, DecidableEq

/-- Normalized `EmailQueryResponse` (src/jmap.ts): `accountId` and `ids` are
always present, `ids` possibly empty. -/
structure EmailQueryResponse where
  accountId : String
  ids : List String
  total : Option Int
  position : Option Int
  queryState : Option String
  canCalculateChanges : Option Bool
  deriving Repr, DecidableEq

/-- The normalization `{...emailsResponse, accountId, ids: emailsResponse.ids || []}`
performed by `getEmails` (src/jmap.ts) on the raw response. -/
def normalizeQueryResponse (accountId : String) (r : RawQueryResponse) :
    EmailQueryResponse :=
  ⟨accountId, r.ids.getD [], r.total, r.position, r.queryState, r.canCalculateChanges⟩

/-- Embedding of `getEmails` (src/jmap.ts): issue the `Email/query` request
against the remote service and normalize the response. -/
def getEmails (server : EmailQueryArgs → Except JmapErr RawQueryResponse)
    (accountId mailboxId : String) (limit : EmailLimit) :
    Except JmapErr EmailQueryResponse :=
  (server (buildEmailQuery accountId mailboxId limit)).map
    (normalizeQueryResponse accountId)

/-- The limit-to-query pipeline of the get-emails command: the CLI argument
parser (`EmailLimitType.from`, which throws the `parseEmailLimit` error and
aborts before the handler) chained into `getEmails`. -/
def getEmailsFromLimitStr
    (server : EmailQueryArgs → Except JmapErr RawQueryResponse)
    (accountId mailboxId limitStr : String) :
    Except JmapErr EmailQueryResponse :=
  match parseEmailLimit limitStr with
  | .error e => .error e
  | .ok limit => getEmails server accountId mailboxId limit

/-- A `bodyValues` entry (src/jmap.ts): the textual content of a body part
and its truncation flag. -/
structure BodyValue where
  value : String
  isTruncated : Option Bool
  deriving Repr, DecidableEq

/-- An email body part reference (src/jmap.ts `EmailBodyPart`).  Only the
fields consulted by the embedded logic are modelled; `blobId`, `size`,
`name` and `disposition` are never read by any embedded function. -/
structure EmailBodyPart where
  partId : Option String
  type : Option String
  deriving Repr, DecidableEq

/-- JavaScript property lookup `bodyValues[partId]` on the body-value
table. -/
def lookupBodyValue (bv : List (String × BodyValue)) (pid : String) :
    Option BodyValue :=
  (bv.find? (fun p => p.1 = pid)).map (fun p => p.2)

/-- The loop-body condition `part.partId && email.bodyValues[part.partId]`
of `extractHtmlContent`/`extractTextContent` (src/jmap.ts): the part id must
be truthy (present and nonempty, per JavaScript truthiness) and bound in the
`bodyValues` table. -/
def resolvePart (bv : List (String × BodyValue)) (part : EmailBodyPart) :
    Option String :=
  match part.partId with
  | none => none
  | some pid =>
      if pid = "" then none else (lookupBodyValue bv pid).map (fun v => v.value)

/-- The `for` loop of `extractHtmlContent`/`extractTextContent`
(src/jmap.ts): return the content of the first part that resolves. -/
def extractFromParts (bv : List (String × BodyValue)) :
    List EmailBodyPart → Option String
  | [] => none
  | part :: rest =>
    match resolvePart bv part with
    | some v => some v
    | none => extractFromParts bv rest

/-- The JMAP email record as consumed by the content extractors
(src/jmap.ts `JmapEmailData`).  Metadata fields not read by any embedded
function (addresses, keywords, preview, ...) are omitted. -/
structure JmapEmailData where
  id : String
  threadId : String
  subject : Option String
  receivedAt : String
  bodyValues : Option (List (String × BodyValue))
  textBody : Option (List EmailBodyPart)
  htmlBody : Option (List EmailBodyPart)
  deriving Repr, DecidableEq

/-- Embedding of `extractHtmlContent` (src/jmap.ts): guarded by
`email.htmlBody && email.htmlBody.length > 0 && email.bodyValues`, then the
first resolving HTML part wins. -/
def extractHtmlContent (email : JmapEmailData) : Option String :=
  match email.htmlBody, email.bodyValues with
  | some parts, some bv =>
      if parts.length > 0 then extractFromParts bv parts else none
  | _, _ => none

/-- Embedding of `extractTextContent` (src/jmap.ts), same shape over
`textBody`. -/
def extractTextContent (email : JmapEmailData) : Option String :=
  match email.textBody, email.bodyValues with
  | some parts, some bv =>
      if parts.length > 0 then extractFromParts bv parts else none
  | _, _ => none

/-- Kind of the selected body content (spec section 4.2). -/
inductive BodyKind where
  | html
  | text
  deriving Repr, DecidableEq

/-- Derived body selection (spec section 3): prefer the HTML content, fall
back to text, else nothing — the pairing `createEmailJson` applies to
`extractHtmlContent`/`extractTextContent` (src/commands/get-emails.ts). -/
def selectBody (email : JmapEmailData) : Option (String × BodyKind) :=
  match extractHtmlContent email with
  | some c => some (c, .html)
  | none =>
    match extractTextContent email with
    | some c => some (c, .text)
    | none => none

/-- Specification-side first-match statement: `v` is the content of the
first resolvable part of `parts` (all earlier parts fail to resolve). -/
def FirstResolvable (bv : List (String × BodyValue))
    (parts : List EmailBodyPart) (v : String) : Prop :=
  ∃ pre part suf, parts = pre ++ part :: suf ∧ resolvePart bv part = some v ∧
    ∀ q ∈ pre, resolvePart bv q = none

/-- Specification-side statement that the message has an HTML part list and
a body-value table whose first resolvable HTML part carries `v`. -/
def ExtractsHtml (email : JmapEmailData) (v : String) : Prop :=
  ∃ parts bv, email.htmlBody = some parts ∧ email.bodyValues = some bv ∧
    FirstResolvable bv parts v

/-- Specification-side statement for the plain-text part list. -/
def ExtractsText (email : JmapEmailData) (v : String) : Prop :=
  ∃ parts bv, email.textBody = some parts ∧ email.bodyValues = some bv ∧
    FirstResolvable bv parts v

/-- An address entry of the sidecar JSON (optional display name, address). -/
structure EmailAddress where
  name : Option String
  email : String
  deriving Repr, DecidableEq

/-- Email data as stored in sidecar JSON files and consumed by the
screenshot generator (src/commands/get-emails.ts, get-image variant
`EmailData`).  The TypeScript fields `from` and `to` are spelled `from_` and
`to_` because both are Lean keywords. -/
structure EmailData where
  id : String
  subject : Option String
  from_ : Option (List EmailAddress)
  to_ : Option (List EmailAddress)
  cc : Option (List EmailAddress)
  receivedAt : String
  htmlBody : Option String
  textBody : Option String
  bodyValues : Option (List (String × BodyValue))
  deriving Repr, DecidableEq

/-- JavaScript `a || b` for an optional string (`undefined` and the empty
string are falsy). -/
def jsOrElse (a : Option String) (b : String) : String :=
  match a with
  | some s => if s = "" then b else s
  | none => b

/-- JavaScript truthiness filter for an optional string. -/
def jsTruthyStr (a : Option String) : Option String :=
  match a with
  | some s => if s = "" then none else some s
  | none => none

/-- Substring occurrence (JavaScript `String.prototype.includes`, also used
to state properties of generated documents). -/
def containsSub : List Char → List Char → Bool
  | [], needle => needle.isEmpty
  | c :: t, needle => needle.isPrefixOf (c :: t) || containsSub t needle

/-- Embedding of `extractRawContent` (src/commands/get-emails.ts, get-image
variant): prefer the stored `htmlBody` string, then the stored `textBody`
string (both under JavaScript truthiness), then the first `bodyValues` entry
whose key mentions "html", then the first `bodyValues` entry of any kind,
and finally the empty marker. -/
def extractRawContent (email : EmailData) : String × Bool :=
  match jsTruthyStr email.htmlBody with
  | some h => (h, true)
  | none =>
    match jsTruthyStr email.textBody with
    | some t => (t, false)
    | none =>
      match email.bodyValues with
      | some bv =>
        match bv.find? (fun p => containsSub (jsToLowerCase p.1).data "html".data) with
        | some p => (p.2.value, true)
        | none =>
          match bv with
          | p :: _ => (p.2.value, false)
          | [] => ("", false)
      | none => ("", false)

/-- Address list rendering `addrs.map(a => a.name || a.email).join(", ")`
(src/commands/get-emails.ts `getMetadataHtml`). -/
def renderAddresses (addrs : List EmailAddress) : String :=
  String.intercalate ", " (addrs.map (fun a => jsOrElse a.name a.email))

/-- Embedding of `getMetadataHtml` (src/commands/get-emails.ts, get-image
variant).  `toLocaleString` abstracts the JavaScript
`new Date(...).toLocaleString()` date rendering. -/
def getMetadataHtml (toLocaleString : String → String) (email : EmailData) :
    String :=
  "\n  <div class=\"email-metadata\">\n    <h2>" ++
  jsOrElse email.subject "No Subject" ++
  "</h2>\n    <p><strong>From:</strong> " ++
  (match email.from_ with
   | some addrs => renderAddresses addrs
   | none => "Unknown") ++
  "</p>\n    <p><strong>To:</strong> " ++
  (match email.to_ with
   | some addrs => renderAddresses addrs
   | none => "Unknown") ++
  "</p>\n    " ++
  (match email.cc with
   | some ccs =>
      if ccs.length > 0 then
        "<p><strong>CC:</strong> " ++ renderAddresses ccs ++ "</p>"
      else ""
   | none => "") ++
  "\n    <p><strong>Date:</strong> " ++ toLocaleString email.receivedAt ++
  "</p>\n  </div>\n"

/-- Embedding of `getCommonStyles` (src/commands/get-emails.ts, get-image
variant). -/
def getCommonStyles : String :=
  "\n  <style>\n    body \x7b font-family: Arial, sans-serif; margin: 20px; \x7d\n    .email-metadata \x7b background: #f5f5f5; padding: 10px; margin-bottom: 20px; border-radius: 5px; \x7d\n    .email-content \x7b padding: 10px; \x7d\n  </style>\n"

/-- Embedding of `generateEmailHtml` (src/commands/get-emails.ts, get-image
variant): pass full documents through unchanged, otherwise wrap the content
(or the fixed no-content notice) in a generated document with a metadata
block.  The template literals are reproduced with their source
indentation. -/
def generateEmailHtml (toLocaleString : String → String) (email : EmailData) :
    String :=
  let rc := extractRawContent email
  let content := rc.1
  let isHtml := rc.2
  let metadataHtml := getMetadataHtml toLocaleString email
  let commonStyles := getCommonStyles
  let subject := jsOrElse email.subject "No Subject"
  if isHtml && (jsStartsWith (jsToLowerCase (jsTrim content)) "<!doctype" ||
      jsStartsWith (jsToLowerCase (jsTrim content)) "<html") then
    content
  else if content = "" then
    "<!DOCTYPE html>\n    <html>\n      <head>\n        <meta charset=\"utf-8\">\n        <title>" ++
    subject ++ "</title>\n        " ++ commonStyles ++
    "\n      </head>\n      <body>\n        " ++ metadataHtml ++
    "\n        <div class=\"email-content\">\n          <p>No content available for this email.</p>\n        </div>\n      </body>\n    </html>"
  else if !isHtml then
    "<!DOCTYPE html>\n    <html>\n      <head>\n        <meta charset=\"utf-8\">\n        <title>" ++
    subject ++ "</title>\n        " ++ commonStyles ++
    "\n      </head>\n      <body>\n        " ++ metadataHtml ++
    "\n        <div class=\"email-content\">\n          " ++
    ("<pre style=\"font-family: sans-serif; white-space: pre-wrap;\">" ++
      content ++ "</pre>") ++
    "\n        </div>\n      </body>\n    </html>"
  else
    "<!DOCTYPE html>\n  <html>\n    <head>\n      <meta charset=\"utf-8\">\n      <title>" ++
    subject ++ "</title>\n      " ++ commonStyles ++
    "\n    </head>\n    <body>\n      " ++ metadataHtml ++
    "\n      <div class=\"email-content\">\n        " ++ content ++
    "\n      </div>\n    </body>\n  </html>"

/-- A JSON value, as produced by `JSON.parse` of a sidecar file. -/
inductive Json where
  | null
  | bool (b : Bool)
  | num (n : Int)
  | str (s : String)
  | arr (elems : List Json)
  | obj (fields : List (String × Json))

/-- Error type of the extract command (src/commands/extract.ts); the
subclasses of `ExtractError` become constructors. -/
inductive ExtractErr where
  | extractError (msg : String)
  | apiKeyError (msg : String)
  | imageProcessingError (msg : String)
  | geminiError (msg : String)
  | fileError (path : String) (msg : String)
  deriving Repr, DecidableEq

/-- First value bound to a key in an association list (JavaScript property
lookup on a parsed JSON object, and path lookup in the modelled
filesystem). -/
def lookupField (fields : List (String × α)) (key : String) : Option α :=
  (fields.find? (fun p => p.1 = key)).map (fun p => p.2)

/-- JavaScript object spread with one override, `{...obj, key: v}`: an
existing `key` keeps its position and receives the new value, otherwise the
field is appended at the end. -/
def recordSet (fields : List (String × α)) (key : String) (v : α) :
    List (String × α) :=
  if (fields.map Prod.fst).contains key then
    fields.map (fun p => if p.1 = key then (key, v) else p)
  else fields ++ [(key, v)]

/-- Fields contributed by spreading a parsed JSON value (`{...emailData}`):
objects contribute their fields, strings and arrays their indexed elements,
primitives nothing — JavaScript spread semantics. -/
def jsSpreadFields : Json → List (String × Json)
  | .obj fields => fields
  | .str s => s.data.enum.map (fun p => (toString p.1, Json.str (String.singleton p.2)))
  | .arr elems => elems.enum.map (fun p => (toString p.1, p.2))
  | _ => []

/-- Embedding of `readJsonFile` (src/commands/extract.ts).  The filesystem
is an association list from path to parsed JSON value; deserialization of
the stored bytes is modelled as the identity on values, and a missing path
is the read failure. -/
def readJsonFile (files : List (String × Json)) (filePath : String) :
    Except ExtractErr Json :=
  match lookupField files filePath with
  | some v => .ok v
  | none => .error (.fileError filePath "Failed to read file")

/-- Embedding of `writeJsonFile` (src/commands/extract.ts): serialize the
value to the given path, replacing the file in place. -/
def writeJsonFile (files : List (String × Json)) (filePath : String)
    (data : Json) : List (String × Json) :=
  recordSet files filePath data

/-- An image path paired with its sidecar JSON path
(src/commands/extract.ts `ImageFilePair`). -/
structure ImageFilePair where
  imagePath : String
  filePath : String
  deriving Repr, DecidableEq

/-- Embedding of `validateImageFilePairs` (src/commands/extract.ts):
mismatched counts fail with the `ExtractError` message, otherwise the paths
are paired index by index. -/
def validateImageFilePairs (images files : List String) :
    Except ExtractErr (List ImageFilePair) :=
  if images.length ≠ files.length then
    .error (.extractError
      ("Number of image paths (" ++ toString images.length ++
        ") does not match number of file paths (" ++ toString files.length ++
        "). Each --image must have a corresponding --file."))
  else .ok ((images.zip files).map (fun p => ⟨p.1, p.2⟩))

/-- Embedding of `processEmailFile` (src/commands/extract.ts): read the
sidecar JSON, obtain the deal record from the Gemini client (abstracted as
the function `gemini` from image path to result), merge it via object
spread as the `dealInfo` field, and rewrite the sidecar file in place. -/
def processEmailFile (gemini : String → Except ExtractErr Json)
    (files : List (String × Json)) (pair : ImageFilePair) :
    Except ExtractErr (List (String × Json)) :=
  match readJsonFile files pair.filePath with
  | .error e => .error e
  | .ok emailData =>
    match gemini pair.imagePath with
    | .error e => .error e
    | .ok dealInfo =>
      .ok (writeJsonFile files pair.filePath
        (.obj (recordSet (jsSpreadFields emailData) "dealInfo" dealInfo)))

/-- The per-pair reduce of the extract handler (`processAllPairs`,
src/commands/extract.ts): fail-fast sequential processing counting
successes.  The last component records the image paths for which the Gemini
client was actually invoked (it is invoked only after the sidecar read
succeeds, and not at all once an earlier pair failed). -/
def runPairs (gemini : String → Except ExtractErr Json) :
    List ImageFilePair → List (String × Json) → Nat →
    Except ExtractErr Nat × List (String × Json) × List String
  | [], files, count => (.ok count, files, [])
  | pair :: rest, files, count =>
    let calledHere : List String :=
      match readJsonFile files pair.filePath with
      | .ok _ => [pair.imagePath]
      | .error _ => []
    match processEmailFile gemini files pair with
    | .error e => (.error e, files, calledHere)
    | .ok files2 =>
      match runPairs gemini rest files2 (count + 1) with
      | (r, filesEnd, calls) => (r, filesEnd, calledHere ++ calls)

/-- The extract command handler (src/commands/extract.ts): validate the
image/file pair counts, then process the pairs.  Returns the exit code, the
final filesystem, and the Gemini invocations; a validation failure returns
exit code 1 immediately, before any file access, any use of the api key, or
any network call. -/
def extractHandler (gemini : String → String → Except ExtractErr Json)
    (images files : List String) (apiKey : String)
    (fileSystem : List (String × Json)) :
    Nat × List (String × Json) × List String :=
  match validateImageFilePairs images files with
  | .error _ => (1, fileSystem, [])
  | .ok pairs =>
    match runPairs (gemini apiKey) pairs fileSystem 0 with
    | (.error _, fs2, calls) => (1, fs2, calls)
    | (.ok _, fs2, calls) => (0, fs2, calls)

end Dealmail

namespace Dealmail

/-- C5: `findMailboxByRole` fails with the not-found `ApiError` when no
mailbox in the list has the requested role, and otherwise returns the first
matching mailbox in input order, unchanged. -/
theorem findMailboxByRole_spec (mailboxes : List Mailbox) (role : String) :
    ((∀ mb ∈ mailboxes, mb.role ≠ some role) →
      findMailboxByRole mailboxes role =
        .error (.apiError ("Could not find " ++ role ++ " folder"))) ∧
    (∀ pre mb suf, mailboxes = pre ++ mb :: suf →
      (∀ x ∈ pre, x.role ≠ some role) → mb.role = some role →
      findMailboxByRole mailboxes role = .ok mb) := by
  constructor
  · intro hnone
    unfold findMailboxByRole
    have : mailboxes.find? (fun box => box.role = some role) = none := by
      apply List.find?_eq_none.mpr
      intro x hx
      simpa using hnone x hx
    rw [this]
  · intro pre mb suf hsplit hpre hmb
    unfold findMailboxByRole
    have : mailboxes.find? (fun box => box.role = some role) = some mb := by
      subst hsplit
      induction pre with
      | nil => simp [List.find?, hmb]
      | cons x xs ih =>
        have hx : ¬ (x.role = some role) := hpre x (by simp)
        simp only [List.cons_append, List.find?]
        have : (decide (x.role = some role)) = false := by simpa using hx
        rw [this]
        exact ih (fun y hy => hpre y (by simp [hy]))
    rw [this]

/-- Witness for C5 at concrete inputs: a list without an archive mailbox is
rejected, and with one match that mailbox is returned unchanged. -/
theorem findMailboxByRole_spec_witness :
    findMailboxByRole [⟨"mb1", "Inbox", some "inbox", 3⟩] "archive" =
      .error (.apiError "Could not find archive folder") ∧
    findMailboxByRole [⟨"mb1", "Inbox", some "inbox", 3⟩,
        ⟨"mb2", "Archive", some "archive", 0⟩] "archive" =
      .ok ⟨"mb2", "Archive", some "archive", 0⟩ := by
  constructor
  · exact (findMailboxByRole_spec [⟨"mb1", "Inbox", some "inbox", 3⟩]
      "archive").1 (by decide)
  · exact (findMailboxByRole_spec [⟨"mb1", "Inbox", some "inbox", 3⟩,
        ⟨"mb2", "Archive", some "archive", 0⟩] "archive").2
      [⟨"mb1", "Inbox", some "inbox", 3⟩] ⟨"mb2", "Archive", some "archive", 0⟩
      [] rfl (by decide) rfl

/-- C1: when any requested id is absent from the remote store, the archive
pipeline fails at the verification step with an error listing exactly the
missing ids, and no `Email/set` request is ever issued — no message is
moved, including the ids that do exist. -/
theorem archive_verify_before_move (store : List String)
    (server : EmailSetRequest → EmailSetResponse) (accountId : String)
    (ids : List String) (inboxId archiveId : String)
    (habsent : ∃ id ∈ ids, id ∉ store) :
    archiveVerifyThenMove store server accountId ids inboxId archiveId =
      (.error (.apiError ("Some emails were not found: " ++
        String.intercalate ", " (emailGetNotFound store ids))), []) := by
  obtain ⟨bad, hbadmem, hbadmiss⟩ := habsent
  have hmem : bad ∈ emailGetNotFound store ids := by
    simp [emailGetNotFound, hbadmem, hbadmiss]
  have hlen : (emailGetNotFound store ids).length > 0 := by
    cases h : emailGetNotFound store ids with
    | nil => rw [h] at hmem; simp at hmem
    | cons a l => simp
  unfold archiveVerifyThenMove verifyEmails
  simp only [hlen, if_pos]

/-- Witness for C1: with store `["A"]` and requested ids `["A", "B"]`, the
pipeline fails listing `B` and issues no `Email/set` request, even though
the server would have reported any update as successful. -/
theorem archive_verify_before_move_witness :
    archiveVerifyThenMove ["A"] (fun req => ⟨[req.emailId], []⟩) "acct"
        ["A", "B"] "inbox1" "arch1" =
      (.error (.apiError "Some emails were not found: B"), []) := by
  exact (archive_verify_before_move ["A"] (fun req => ⟨[req.emailId], []⟩)
    "acct" ["A", "B"] "inbox1" "arch1" ⟨"B", by simp, by simp⟩).trans rfl

/-- C2 counterexample: an `Email/set` response whose `notUpdated` map
contains the message id (so the claim demands a failure) but whose `updated`
map also contains it; `archiveEmail` returns `.ok true`, not an error. -/
theorem archiveEmail_notUpdated_counterexample :
    (lookupNotUpdated [("e1", ⟨"forbidden", none⟩)] "e1").isSome = true ∧
    archiveEmail (fun _ => ⟨["e1"], [("e1", ⟨"forbidden", none⟩)]⟩)
      "acct" "e1" "inbox1" "arch1" = .ok true := by
  exact ⟨rfl, rfl⟩

/-- C2 (amended): for every `Email/set` response, `archiveEmail` returns
`true` when the `updated` map contains the id, fails with an `ApiError` when
the `updated` map does not contain the id and the `notUpdated` map does, and
returns `false` when the id appears in neither map. -/
theorem archiveEmail_outcomes (server : EmailSetRequest → EmailSetResponse)
    (accountId emailId inboxId archiveId : String) :
    ((server ⟨accountId, emailId, inboxId, archiveId⟩).updated.contains emailId = true →
      archiveEmail server accountId emailId inboxId archiveId = .ok true) ∧
    ((server ⟨accountId, emailId, inboxId, archiveId⟩).updated.contains emailId = false →
      ∀ err, lookupNotUpdated
          (server ⟨accountId, emailId, inboxId, archiveId⟩).notUpdated emailId = some err →
      archiveEmail server accountId emailId inboxId archiveId =
        .error (.apiError
          ("Failed to archive email " ++ emailId ++ ": " ++ err.stringify))) ∧
    ((server ⟨accountId, emailId, inboxId, archiveId⟩).updated.contains emailId = false →
      lookupNotUpdated
          (server ⟨accountId, emailId, inboxId, archiveId⟩).notUpdated emailId = none →
      archiveEmail server accountId emailId inboxId archiveId = .ok false) := by
  refine ⟨?_, ?_, ?_⟩
  · intro hupd
    have hm : emailId ∈ (server ⟨accountId, emailId, inboxId, archiveId⟩).updated := by
      simpa using hupd
    simp [archiveEmail, archiveEmailResult, hm]
  · intro hupd err hnot
    have hm : emailId ∉ (server ⟨accountId, emailId, inboxId, archiveId⟩).updated := by
      simpa using hupd
    simp [archiveEmail, archiveEmailResult, hm, hnot]
  · intro hupd hnot
    have hm : emailId ∉ (server ⟨accountId, emailId, inboxId, archiveId⟩).updated := by
      simpa using hupd
    simp [archiveEmail, archiveEmailResult, hm, hnot]

/-- Witness for C2 (amended), exercising all three outcomes on concrete
responses: updated, per-item failure, and neither. -/
theorem archiveEmail_outcomes_witness :
    archiveEmail (fun _ => ⟨["e1"], []⟩) "a" "e1" "i" "r" = .ok true ∧
    archiveEmail (fun _ => ⟨[], [("e1", ⟨"notFound", none⟩)]⟩) "a" "e1" "i" "r" =
      .error (.apiError
        "Failed to archive email e1: \x7b\"type\":\"notFound\"\x7d") ∧
    archiveEmail (fun _ => ⟨[], []⟩) "a" "e1" "i" "r" = .ok false := by
  refine ⟨?_, ?_, ?_⟩
  · exact (archiveEmail_outcomes (fun _ => ⟨["e1"], []⟩) "a" "e1" "i" "r").1 rfl
  · exact ((archiveEmail_outcomes (fun _ => ⟨[], [("e1", ⟨"notFound", none⟩)]⟩)
      "a" "e1" "i" "r").2.1 rfl ⟨"notFound", none⟩ rfl).trans rfl
  · exact (archiveEmail_outcomes (fun _ => ⟨[], []⟩) "a" "e1" "i" "r").2.2 rfl rfl

/-- C6 counterexample: `"12abc"` is not a numeral, yet the parser accepts it
(JavaScript `parseInt` reads the numeric prefix), so the command proceeds to
the remote call with limit 12 instead of rejecting the input. -/
theorem parseEmailLimit_nonNumeric_counterexample :
    parseEmailLimit "12abc" = .ok (.finite 12) ∧
    getEmailsFromLimitStr (fun _ => .ok ⟨none, some ["m1"], none, none, none, none⟩)
        "acct" "mb" "12abc" =
      .ok ⟨"acct", ["m1"], none, none, none, none⟩ := by
  exact ⟨rfl, rfl⟩

/-- C6 (amended): `"all"` (case-insensitive) parses to the unbounded limit
and the `Email/query` request then carries no limit value; a string whose
`parseInt` value is `NaN`, zero or negative is rejected by the parser with
an `ApiError`, and the pipeline then fails identically for every remote
service, so no call is made.  Strings with a positive numeric prefix parse
to that prefix (see the counterexample). -/
theorem getEmails_limit_spec (accountId mailboxId s : String) :
    (jsToLowerCase s = "all" →
      parseEmailLimit s = .ok .infinite ∧
      (buildEmailQuery accountId mailboxId EmailLimit.infinite).limit = none ∧
      ∀ server, getEmailsFromLimitStr server accountId mailboxId s =
        (server (buildEmailQuery accountId mailboxId EmailLimit.infinite)).map
          (normalizeQueryResponse accountId)) ∧
    (jsToLowerCase s ≠ "all" → jsParseInt s = none →
      ∃ msg, parseEmailLimit s = .error (.apiError msg) ∧
        ∀ server, getEmailsFromLimitStr server accountId mailboxId s =
          .error (.apiError msg)) ∧
    (∀ n, jsToLowerCase s ≠ "all" → jsParseInt s = some n → n ≤ 0 →
      ∃ msg, parseEmailLimit s = .error (.apiError msg) ∧
        ∀ server, getEmailsFromLimitStr server accountId mailboxId s =
          .error (.apiError msg)) := by
  refine ⟨?_, ?_, ?_⟩
  · intro hall
    have hp : parseEmailLimit s = .ok .infinite := by
      simp [parseEmailLimit, hall]
    exact ⟨hp, rfl, fun server => by simp [getEmailsFromLimitStr, hp, getEmails]⟩
  · intro hall hnan
    refine ⟨"Invalid limit: " ++ s ++ ". Must be a positive number or \"all\"", ?_, ?_⟩
    · simp [parseEmailLimit, hall, hnan]
    · intro server
      simp [getEmailsFromLimitStr, parseEmailLimit, hall, hnan]
  · intro n hall hn hle
    refine ⟨"Invalid limit: " ++ s ++ ". Must be a positive number or \"all\"", ?_, ?_⟩
    · simp [parseEmailLimit, hall, hn, hle]
    · intro server
      simp [getEmailsFromLimitStr, parseEmailLimit, hall, hn, hle]

/-- Witness for C6 (amended) at concrete inputs: `"ALL"` is unbounded with
no limit passed to the remote call, and `"0"`, `"-3"` and `"abc"` are all
rejected by the parser. -/
theorem getEmails_limit_spec_witness :
    parseEmailLimit "ALL" = .ok .infinite ∧
    (buildEmailQuery "acct" "mb" EmailLimit.infinite).limit = none ∧
    (∃ msg, parseEmailLimit "0" = .error (.apiError msg)) ∧
    (∃ msg, parseEmailLimit "-3" = .error (.apiError msg)) ∧
    (∃ msg, parseEmailLimit "abc" = .error (.apiError msg)) := by
  refine ⟨?_, ?_, ?_, ?_, ?_⟩
  · exact ((getEmails_limit_spec "acct" "mb" "ALL").1 rfl).1
  · exact ((getEmails_limit_spec "acct" "mb" "ALL").1 rfl).2.1
  · obtain ⟨msg, hmsg, -⟩ :=
      (getEmails_limit_spec "acct" "mb" "0").2.2 0 (by decide) rfl (by decide)
    exact ⟨msg, hmsg⟩
  · obtain ⟨msg, hmsg, -⟩ :=
      (getEmails_limit_spec "acct" "mb" "-3").2.2 (-3) (by decide) rfl (by decide)
    exact ⟨msg, hmsg⟩
  · obtain ⟨msg, hmsg, -⟩ :=
      (getEmails_limit_spec "acct" "mb" "abc").2.1 (by decide) rfl
    exact ⟨msg, hmsg⟩

/-- C10: every successful `getEmails` result is the normalized response —
its `accountId` equals the requested account id and its `ids` field is the
remote list when present and the empty array when the remote response
carries no ids, so it is always an array. -/
theorem getEmails_normalized (server : EmailQueryArgs → Except JmapErr RawQueryResponse)
    (accountId mailboxId : String) (limit : EmailLimit) (raw : RawQueryResponse)
    (hresp : server (buildEmailQuery accountId mailboxId limit) = .ok raw) :
    getEmails server accountId mailboxId limit =
      .ok (normalizeQueryResponse accountId raw) ∧
    (normalizeQueryResponse accountId raw).accountId = accountId ∧
    (normalizeQueryResponse accountId raw).ids = raw.ids.getD [] ∧
    (raw.ids = none → (normalizeQueryResponse accountId raw).ids = []) := by
  refine ⟨?_, rfl, rfl, ?_⟩
  · simp [getEmails, hresp, Except.map]
  · intro h
    simp [normalizeQueryResponse, h]

/-- Witness for C10: a remote response with no ids field normalizes to the
empty array and the requested account id. -/
theorem getEmails_normalized_witness :
    getEmails (fun _ => .ok ⟨some "other", none, none, none, none, none⟩)
        "acct" "mb" (.finite 5) =
      .ok ⟨"acct", [], none, none, none, none⟩ := by
  exact ((getEmails_normalized (fun _ => .ok ⟨some "other", none, none, none, none, none⟩)
    "acct" "mb" (.finite 5) ⟨some "other", none, none, none, none, none⟩ rfl).1).trans rfl

/-- Helper: after overriding every entry keyed `k`, looking `k` up finds the
new value (assuming some entry is keyed `k`). -/
theorem find?_map_set_self {α : Type _} (l : List (String × α)) (k : String)
    (v : α) (hk : k ∈ l.map Prod.fst) :
    (l.map (fun p => if p.1 = k then (k, v) else p)).find?
      (fun p => p.1 = k) = some (k, v) := by
  induction l with
  | nil => simp at hk
  | cons q t ih =>
    rw [List.map_cons]
    by_cases hq : q.1 = k
    · rw [if_pos hq]
      exact List.find?_cons_of_pos _ (by simp)
    · rw [if_neg hq, List.find?_cons_of_neg _ (by simpa using hq)]
      apply ih
      rw [List.map_cons] at hk
      rcases List.mem_cons.mp hk with h | h
      · exact absurd h.symm hq
      · exact h

/-- Helper: overriding entries keyed `k` leaves lookups of other keys
untouched. -/
theorem find?_map_set_other {α : Type _} (l : List (String × α))
    (k k2 : String) (v : α) (hne : k2 ≠ k) :
    (l.map (fun p => if p.1 = k then (k, v) else p)).find?
      (fun p => p.1 = k2) = l.find? (fun p => p.1 = k2) := by
  induction l with
  | nil => simp
  | cons q t ih =>
    rw [List.map_cons]
    by_cases hq : q.1 = k
    · rw [if_pos hq,
        List.find?_cons_of_neg _ (by simp only [decide_eq_true_eq]; exact Ne.symm hne),
        List.find?_cons_of_neg _
          (by simp only [decide_eq_true_eq, hq]; exact Ne.symm hne)]
      exact ih
    · rw [if_neg hq]
      by_cases hq2 : q.1 = k2
      · rw [List.find?_cons_of_pos _ (by simpa using hq2),
          List.find?_cons_of_pos _ (by simpa using hq2)]
      · rw [List.find?_cons_of_neg _ (by simpa using hq2),
          List.find?_cons_of_neg _ (by simpa using hq2)]
        exact ih

/-- Helper: `recordSet` binds the written key to the written value. -/
theorem lookupField_recordSet_self {α : Type _} (l : List (String × α))
    (k : String) (v : α) :
    lookupField (recordSet l k v) k = some v := by
  unfold lookupField recordSet
  by_cases hc : (l.map Prod.fst).contains k = true
  · rw [if_pos hc, find?_map_set_self l k v (List.mem_of_elem_eq_true hc)]
    rfl
  · rw [if_neg hc, List.find?_append]
    have hfl : l.find? (fun p => p.1 = k) = none := by
      apply List.find?_eq_none.mpr
      intro p hp
      simp only [decide_eq_true_eq]
      intro hpk
      exact hc (List.elem_eq_true_of_mem (List.mem_map.mpr ⟨p, hp, hpk⟩))
    rw [hfl, List.find?_cons_of_pos _ (by simp)]
    rfl

/-- Helper: `recordSet` leaves every other key's binding unchanged. -/
theorem lookupField_recordSet_other {α : Type _} (l : List (String × α))
    (k k2 : String) (v : α) (hne : k2 ≠ k) :
    lookupField (recordSet l k v) k2 = lookupField l k2 := by
  unfold lookupField recordSet
  by_cases hc : (l.map Prod.fst).contains k = true
  · rw [if_pos hc, find?_map_set_other l k k2 v hne]
  · rw [if_neg hc, List.find?_append,
      List.find?_cons_of_neg _ (by simp only [decide_eq_true_eq]; exact Ne.symm hne)]
    simp

/-- Helper: `recordSet` introduces no key other than the written one. -/
theorem recordSet_keys {α : Type _} (l : List (String × α)) (k k2 : String)
    (v : α) (hmem : k2 ∈ (recordSet l k v).map Prod.fst) :
    k2 ∈ l.map Prod.fst ∨ k2 = k := by
  unfold recordSet at hmem
  by_cases hc : (l.map Prod.fst).contains k = true
  · rw [if_pos hc, List.map_map] at hmem
    obtain ⟨p, hp, hpk⟩ := List.mem_map.mp hmem
    by_cases hpq : p.1 = k
    · right
      simp [Function.comp, hpq] at hpk
      exact hpk.symm
    · left
      simp [Function.comp, hpq] at hpk
      exact List.mem_map.mpr ⟨p, hp, hpk⟩
  · rw [if_neg hc, List.map_append] at hmem
    rcases List.mem_append.mp hmem with h | h
    · exact Or.inl h
    · right
      simpa using h

/-- C4: processing a pair with the extract command rewrites the sidecar file
so that reading it back yields the original object with `dealInfo` bound to
the extracted record; every other field is looked up unchanged, and no field
beyond the original ones and `dealInfo` exists. -/
theorem extract_sidecar_roundtrip (gemini : String → Except ExtractErr Json)
    (files : List (String × Json)) (pair : ImageFilePair)
    (fields : List (String × Json)) (deal : Json)
    (hread : readJsonFile files pair.filePath = .ok (.obj fields))
    (hgem : gemini pair.imagePath = .ok deal) :
    ∃ files2,
      processEmailFile gemini files pair = .ok files2 ∧
      readJsonFile files2 pair.filePath =
        .ok (.obj (recordSet fields "dealInfo" deal)) ∧
      lookupField (recordSet fields "dealInfo" deal) "dealInfo" = some deal ∧
      (∀ k, k ≠ "dealInfo" →
        lookupField (recordSet fields "dealInfo" deal) k = lookupField fields k) ∧
      (∀ k, k ∈ (recordSet fields "dealInfo" deal).map Prod.fst →
        k ∈ fields.map Prod.fst ∨ k = "dealInfo") := by
  refine ⟨writeJsonFile files pair.filePath
      (.obj (recordSet (jsSpreadFields (.obj fields)) "dealInfo" deal)),
    ?_, ?_, ?_, ?_, ?_⟩
  · simp [processEmailFile, hread, hgem]
  · unfold readJsonFile writeJsonFile
    rw [show jsSpreadFields (Json.obj fields) = fields from rfl,
      lookupField_recordSet_self]
  · exact lookupField_recordSet_self fields "dealInfo" deal
  · intro k hk
    exact lookupField_recordSet_other fields "dealInfo" k deal hk
  · intro k hk
    exact recordSet_keys fields "dealInfo" k deal hk

/-- Witness for C4 at a concrete sidecar: the rewritten file holds the
original field plus the extracted `dealInfo`. -/
theorem extract_sidecar_roundtrip_witness :
    ∃ files2,
      processEmailFile (fun _ => .ok (.obj [("sender", .str "Shop")]))
          [("a.json", .obj [("id", .str "m1")])] ⟨"a.png", "a.json"⟩ =
        .ok files2 ∧
      readJsonFile files2 "a.json" =
        .ok (.obj [("id", .str "m1"),
          ("dealInfo", .obj [("sender", .str "Shop")])]) := by
  obtain ⟨files2, h1, h2, -⟩ :=
    extract_sidecar_roundtrip (fun _ => .ok (.obj [("sender", .str "Shop")]))
      [("a.json", .obj [("id", .str "m1")])] ⟨"a.png", "a.json"⟩
      [("id", .str "m1")] (.obj [("sender", .str "Shop")]) rfl rfl
  exact ⟨files2, h1, h2.trans rfl⟩

/-- C9: when the image and file path counts differ, the extract handler
fails with the validation error and exit code 1, the filesystem is
untouched (no file processed), the Gemini client is never invoked (no
network call), and the outcome does not depend on the api key. -/
theorem extract_count_mismatch (gemini : String → String → Except ExtractErr Json)
    (images files : List String) (apiKey : String)
    (fileSystem : List (String × Json))
    (hmis : images.length ≠ files.length) :
    validateImageFilePairs images files =
      .error (.extractError
        ("Number of image paths (" ++ toString images.length ++
          ") does not match number of file paths (" ++ toString files.length ++
          "). Each --image must have a corresponding --file.")) ∧
    extractHandler gemini images files apiKey fileSystem =
      (1, fileSystem, []) := by
  have hv : validateImageFilePairs images files =
      .error (.extractError
        ("Number of image paths (" ++ toString images.length ++
          ") does not match number of file paths (" ++ toString files.length ++
          "). Each --image must have a corresponding --file.")) := by
    simp [validateImageFilePairs, hmis]
  exact ⟨hv, by simp [extractHandler, hv]⟩

/-- Witness for C9: two images against one file fail with exit code 1, no
file touched and no Gemini call, under an arbitrary api key. -/
theorem extract_count_mismatch_witness :
    extractHandler (fun _ _ => .error (.geminiError "unused"))
      ["a.png", "b.png"] ["a.json"] "key1" [("a.json", Json.obj [])] =
      (1, [("a.json", Json.obj [])], []) := by
  exact (extract_count_mismatch (fun _ _ => .error (.geminiError "unused"))
    ["a.png", "b.png"] ["a.json"] "key1" [("a.json", Json.obj [])]
    (by decide)).2

/-- Helper: when the selected content is HTML and already looks like a full
document, `generateEmailHtml` passes it through unchanged. -/
theorem generateEmailHtml_full_document (toLocaleString : String → String)
    (email : EmailData) (content : String)
    (hsel : extractRawContent email = (content, true))
    (hdoc : (jsStartsWith (jsToLowerCase (jsTrim content)) "<!doctype" ||
        jsStartsWith (jsToLowerCase (jsTrim content)) "<html") = true) :
    generateEmailHtml toLocaleString email = content := by
  simp [generateEmailHtml, hsel, hdoc]

/-- C7: for every message whose selected HTML content starts (after
trimming, case-insensitively) with a document or html declaration, the
display-HTML generation returns the content unchanged, and running the
generation again on a message holding that output yields the same
document (idempotence). -/
theorem generateEmailHtml_passthrough (toLocaleString : String → String)
    (email : EmailData) (content : String)
    (hsel : extractRawContent email = (content, true))
    (hdoc : jsStartsWith (jsToLowerCase (jsTrim content)) "<!doctype" = true ∨
        jsStartsWith (jsToLowerCase (jsTrim content)) "<html" = true) :
    generateEmailHtml toLocaleString email = content ∧
    ∀ email2 : EmailData,
      email2.htmlBody = some (generateEmailHtml toLocaleString email) →
      generateEmailHtml toLocaleString email2 =
        generateEmailHtml toLocaleString email := by
  have hb : (jsStartsWith (jsToLowerCase (jsTrim content)) "<!doctype" ||
      jsStartsWith (jsToLowerCase (jsTrim content)) "<html") = true := by
    rcases hdoc with h | h <;> simp [h]
  have hne : content ≠ "" := by
    intro hemp
    rw [hemp] at hb
    exact absurd hb (by decide)
  have h1 := generateEmailHtml_full_document toLocaleString email content hsel hb
  refine ⟨h1, ?_⟩
  intro email2 h2
  have hsel2 : extractRawContent email2 =
      (generateEmailHtml toLocaleString email, true) := by
    unfold extractRawContent
    rw [h2, h1]
    simp [jsTruthyStr, hne]
  rw [generateEmailHtml_full_document toLocaleString email2
    (generateEmailHtml toLocaleString email) hsel2 (by rw [h1]; exact hb)]

/-- Witness for C7: a stored full document is returned byte-for-byte, and
regeneration from the output is a fixed point. -/
theorem generateEmailHtml_passthrough_witness :
    generateEmailHtml (fun s => s)
      ⟨"m1", none, none, none, none, "2024-01-01T00:00:00Z",
        some "<!DOCTYPE html><body>x</body>", none, none⟩ =
      "<!DOCTYPE html><body>x</body>" ∧
    generateEmailHtml (fun s => s)
      ⟨"m2", none, none, none, none, "2024-01-02T00:00:00Z",
        some "<!DOCTYPE html><body>x</body>", none, none⟩ =
      "<!DOCTYPE html><body>x</body>" := by
  have h := generateEmailHtml_passthrough (fun s => s)
    ⟨"m1", none, none, none, none, "2024-01-01T00:00:00Z",
      some "<!DOCTYPE html><body>x</body>", none, none⟩
    "<!DOCTYPE html><body>x</body>" rfl (Or.inl (by decide))
  refine ⟨h.1, ?_⟩
  have h2 := h.2
    ⟨"m2", none, none, none, none, "2024-01-02T00:00:00Z",
      some "<!DOCTYPE html><body>x</body>", none, none⟩
    (by rw [h.1])
  rw [h2, h.1]

set_option maxRecDepth 100000 in
/-- C3 counterexample: a message whose selected body is the plain text
`<b>deal</b>` produces a document that contains that text raw inside the
`<pre>` block and contains no `&` at all, so no HTML entity escaping
happened — the claim that metacharacters are escaped fails. -/
theorem generateEmailHtml_unescaped_counterexample :
    containsSub (generateEmailHtml (fun s => s)
        ⟨"m1", none, none, none, none, "2024", none, some "<b>deal</b>",
          none⟩).data
      "<pre style=\"font-family: sans-serif; white-space: pre-wrap;\"><b>deal</b></pre>".data =
      true ∧
    (generateEmailHtml (fun s => s)
        ⟨"m1", none, none, none, none, "2024", none, some "<b>deal</b>",
          none⟩).data.count '&' = 0 := by
  constructor
  · decide
  · decide

/-- C3 (amended): for every message whose selected body is plain text, the
generated display HTML contains that text inside the preformatted block,
inserted verbatim — no escaping of HTML metacharacters is performed. -/
theorem generateEmailHtml_plaintext_verbatim (toLocaleString : String → String)
    (email : EmailData) (content : String)
    (hsel : extractRawContent email = (content, false))
    (hne : content ≠ "") :
    ∃ s1 s2, generateEmailHtml toLocaleString email =
      s1 ++ ("<pre style=\"font-family: sans-serif; white-space: pre-wrap;\">" ++
        content ++ "</pre>") ++ s2 := by
  refine ⟨"<!DOCTYPE html>\n    <html>\n      <head>\n        <meta charset=\"utf-8\">\n        <title>" ++
    jsOrElse email.subject "No Subject" ++ "</title>\n        " ++
    getCommonStyles ++ "\n      </head>\n      <body>\n        " ++
    getMetadataHtml toLocaleString email ++
    "\n        <div class=\"email-content\">\n          ",
    "\n        </div>\n      </body>\n    </html>", ?_⟩
  simp [generateEmailHtml, hsel, hne]

/-- Witness for C3 (amended): the concrete plain-text message produces a
document splitting around the verbatim pre block. -/
theorem generateEmailHtml_plaintext_verbatim_witness :
    ∃ s1 s2, generateEmailHtml (fun s => s)
        ⟨"m2", none, none, none, none, "2024", none, some "20% off", none⟩ =
      s1 ++ ("<pre style=\"font-family: sans-serif; white-space: pre-wrap;\">" ++
        "20% off" ++ "</pre>") ++ s2 := by
  exact generateEmailHtml_plaintext_verbatim (fun s => s)
    ⟨"m2", none, none, none, none, "2024", none, some "20% off", none⟩
    "20% off" rfl (by decide)

/-- Helper: the extraction loop returns `v` exactly when `v` is the first
resolvable part's content. -/
theorem extractFromParts_eq_some_iff (bv : List (String × BodyValue))
    (parts : List EmailBodyPart) (v : String) :
    extractFromParts bv parts = some v ↔ FirstResolvable bv parts v := by
  induction parts with
  | nil =>
    simp only [extractFromParts]
    constructor
    · intro h
      cases h
    · rintro ⟨pre, part, suf, h, -, -⟩
      exact absurd h (by simp)
  | cons p rest ih =>
    cases hr : resolvePart bv p with
    | some w =>
      simp only [extractFromParts, hr, Option.some.injEq]
      constructor
      · rintro rfl
        exact ⟨[], p, rest, rfl, hr, by simp⟩
      · rintro ⟨pre, part, suf, hsplit, hres, hpre⟩
        cases pre with
        | nil =>
          simp only [List.nil_append] at hsplit
          injection hsplit with h1 h2
          rw [← h1, hr] at hres
          injection hres
        | cons q qs =>
          injection hsplit with h1 h2
          have hq := hpre q (by simp)
          rw [← h1, hr] at hq
          cases hq
    | none =>
      simp only [extractFromParts, hr, ih]
      constructor
      · rintro ⟨pre, part, suf, h1, h2, h3⟩
        refine ⟨p :: pre, part, suf, by rw [List.cons_append, h1], h2, ?_⟩
        intro q hq
        rcases List.mem_cons.mp hq with rfl | hq2
        · exact hr
        · exact h3 q hq2
      · rintro ⟨pre, part, suf, h1, h2, h3⟩
        cases pre with
        | nil =>
          simp only [List.nil_append] at h1
          injection h1 with ha hb
          rw [← ha, hr] at h2
          cases h2
        | cons q qs =>
          injection h1 with ha hb
          exact ⟨qs, part, suf, hb, h2,
            fun r hrm => h3 r (List.mem_cons_of_mem q hrm)⟩

/-- Helper: the extraction loop fails exactly when no part resolves. -/
theorem extractFromParts_eq_none_iff (bv : List (String × BodyValue))
    (parts : List EmailBodyPart) :
    extractFromParts bv parts = none ↔ ∀ p ∈ parts, resolvePart bv p = none := by
  induction parts with
  | nil => simp [extractFromParts]
  | cons p rest ih =>
    cases hr : resolvePart bv p with
    | some w => simp [extractFromParts, hr]
    | none => simp [extractFromParts, hr, ih]

/-- Helper: `extractHtmlContent` succeeds exactly on the first resolvable
HTML part. -/
theorem extractHtmlContent_iff (email : JmapEmailData) (v : String) :
    extractHtmlContent email = some v ↔ ExtractsHtml email v := by
  unfold extractHtmlContent ExtractsHtml
  cases hhb : email.htmlBody with
  | none => simp
  | some parts =>
    cases hbv : email.bodyValues with
    | none => simp
    | some bv =>
      by_cases hlen : parts.length > 0
      · dsimp only
        rw [if_pos hlen, extractFromParts_eq_some_iff]
        simp only [Option.some.injEq]
        constructor
        · intro h
          exact ⟨parts, bv, rfl, rfl, h⟩
        · rintro ⟨p2, b2, rfl, rfl, h3⟩
          exact h3
      · have hnil : parts = [] := by
          cases parts with
          | nil => rfl
          | cons a l => simp at hlen
        subst hnil
        dsimp only
        rw [if_neg hlen]
        simp only [Option.some.injEq]
        constructor
        · intro h
          cases h
        · rintro ⟨p2, b2, rfl, rfl, pre, part, suf, hsplit, -, -⟩
          exact absurd hsplit (by simp)

/-- Helper: `extractTextContent` succeeds exactly on the first resolvable
plain-text part. -/
theorem extractTextContent_iff (email : JmapEmailData) (v : String) :
    extractTextContent email = some v ↔ ExtractsText email v := by
  unfold extractTextContent ExtractsText
  cases hhb : email.textBody with
  | none => simp
  | some parts =>
    cases hbv : email.bodyValues with
    | none => simp
    | some bv =>
      by_cases hlen : parts.length > 0
      · dsimp only
        rw [if_pos hlen, extractFromParts_eq_some_iff]
        simp only [Option.some.injEq]
        constructor
        · intro h
          exact ⟨parts, bv, rfl, rfl, h⟩
        · rintro ⟨p2, b2, rfl, rfl, h3⟩
          exact h3
      · have hnil : parts = [] := by
          cases parts with
          | nil => rfl
          | cons a l => simp at hlen
        subst hnil
        dsimp only
        rw [if_neg hlen]
        simp only [Option.some.injEq]
        constructor
        · intro h
          cases h
        · rintro ⟨p2, b2, rfl, rfl, pre, part, suf, hsplit, -, -⟩
          exact absurd hsplit (by simp)

/-- Helper: `extractHtmlContent` returns `none` exactly when no HTML part
resolves in the message. -/
theorem extractHtmlContent_none_iff (email : JmapEmailData) :
    extractHtmlContent email = none ↔ ¬ ∃ w, ExtractsHtml email w := by
  constructor
  · rintro h ⟨w, hw⟩
    rw [(extractHtmlContent_iff email w).mpr hw] at h
    cases h
  · intro h
    cases hx : extractHtmlContent email with
    | none => rfl
    | some c => exact absurd ⟨c, (extractHtmlContent_iff email c).mp hx⟩ h

/-- Helper: the text analogue. -/
theorem extractTextContent_none_iff (email : JmapEmailData) :
    extractTextContent email = none ↔ ¬ ∃ w, ExtractsText email w := by
  constructor
  · rintro h ⟨w, hw⟩
    rw [(extractTextContent_iff email w).mpr hw] at h
    cases h
  · intro h
    cases hx : extractTextContent email with
    | none => rfl
    | some c => exact absurd ⟨c, (extractTextContent_iff email c).mp hx⟩ h

/-- C8: body selection is a deterministic first-match — the selection is
HTML with content `v` exactly when `v` is the first resolvable HTML part's
content; text with `v` exactly when no HTML part resolves and `v` is the
first resolvable text part's content; absent exactly when neither
resolves. -/
theorem selectBody_first_match (email : JmapEmailData) (v : String) :
    (selectBody email = some (v, BodyKind.html) ↔ ExtractsHtml email v) ∧
    (selectBody email = some (v, BodyKind.text) ↔
      (¬ ∃ w, ExtractsHtml email w) ∧ ExtractsText email v) ∧
    (selectBody email = none ↔
      (¬ ∃ w, ExtractsHtml email w) ∧ ¬ ∃ w, ExtractsText email w) := by
  unfold selectBody
  cases hx : extractHtmlContent email with
  | some c =>
    have hech : ExtractsHtml email c := (extractHtmlContent_iff email c).mp hx
    refine ⟨?_, ?_, ?_⟩
    · simp only [Option.some.injEq, Prod.mk.injEq, and_true]
      constructor
      · rintro ⟨rfl, -⟩
        exact hech
      · intro hv
        have h2 := (extractHtmlContent_iff email v).mpr hv
        rw [hx] at h2
        injection h2
    · simp only [Option.some.injEq, Prod.mk.injEq]
      constructor
      · rintro ⟨-, hkind⟩
        cases hkind
      · rintro ⟨hno, -⟩
        exact absurd ⟨c, hech⟩ hno
    · constructor
      · intro h
        cases h
      · rintro ⟨hno, -⟩
        exact absurd ⟨c, hech⟩ hno
  | none =>
    have hnoH : ¬ ∃ w, ExtractsHtml email w :=
      (extractHtmlContent_none_iff email).mp hx
    cases ht : extractTextContent email with
    | some c =>
      have hect : ExtractsText email c := (extractTextContent_iff email c).mp ht
      refine ⟨?_, ?_, ?_⟩
      · simp only [Option.some.injEq, Prod.mk.injEq]
        constructor
        · rintro ⟨-, hkind⟩
          cases hkind
        · intro hv
          exact absurd ⟨v, hv⟩ hnoH
      · simp only [Option.some.injEq, Prod.mk.injEq, and_true]
        constructor
        · rintro ⟨rfl, -⟩
          exact ⟨hnoH, hect⟩
        · rintro ⟨-, hv⟩
          have h2 := (extractTextContent_iff email v).mpr hv
          rw [ht] at h2
          injection h2
      · constructor
        · intro h
          cases h
        · rintro ⟨-, hno⟩
          exact absurd ⟨c, hect⟩ hno
    | none =>
      have hnoT : ¬ ∃ w, ExtractsText email w :=
        (extractTextContent_none_iff email).mp ht
      refine ⟨?_, ?_, ?_⟩
      · constructor
        · intro h
          cases h
        · intro hv
          exact absurd ⟨v, hv⟩ hnoH
      · constructor
        · intro h
          cases h
        · rintro ⟨-, hv⟩
          exact absurd ⟨v, hv⟩ hnoT
      · exact ⟨fun _ => ⟨hnoH, hnoT⟩, fun _ => rfl⟩

/-- Witness for C8 at a concrete message: the HTML part resolving in the
body-value table is selected even though a text part also resolves. -/
theorem selectBody_first_match_witness :
    ExtractsHtml
      ⟨"m1", "t1", none, "2024",
        some [("1", ⟨"hello", none⟩), ("2", ⟨"<p>hi</p>", none⟩)],
        some [⟨some "1", some "text/plain"⟩],
        some [⟨some "2", some "text/html"⟩]⟩
      "<p>hi</p>" := by
  exact (selectBody_first_match
    ⟨"m1", "t1", none, "2024",
      some [("1", ⟨"hello", none⟩), ("2", ⟨"<p>hi</p>", none⟩)],
      some [⟨some "1", some "text/plain"⟩],
      some [⟨some "2", some "text/html"⟩]⟩
    "<p>hi</p>").1.mp rfl

end Dealmail
